import Mathlib

/-!
# Verification development for the `util` package (`util.go`)

Shallow embedding of the pure helpers of `util.go` and theorems about them.

Conventions of the embedding:

* a Go `string` is the list of its bytes (`GoString`), each byte a natural number below 256;
* a Go run-time panic (index or slice bounds out of range) and the process abort of
  `log.Fatal` are the result `none` of an `Option`;
* `int`, `int64` are integers, with explicit wrap-around modulo `2^64` where the
  source can overflow;
* library calls whose result depends on data this package does not define
  (`json.Marshal`, `json.Unmarshal`) are parameters of the functions using them.
* a `float32` or `float64` is its exact rational value, an infinity or NaN, and each
  `float64` operation rounds its exact result to nearest, ties to even.
-/

namespace Util

/-! ## Go strings and slices -/

/-- A Go string: its sequence of bytes. -/
abbrev GoString := List Nat

/-- The bytes of an ASCII string literal of the source. -/
def ascii (s : String) : GoString := s.data.map Char.toNat

/-- The slice expression `s[lo:hi]`: it panics unless `0 ≤ lo ≤ hi ≤ len(s)`. -/
def goSlice {α : Type} (s : List α) (lo hi : Int) : Option (List α) :=
  if 0 ≤ lo ∧ lo ≤ hi ∧ hi ≤ (s.length : Int) then
    some ((s.drop lo.toNat).take (hi.toNat - lo.toNat))
  else none

/-- The call `strings.Index(s, sep)` for a one-byte separator `c`: the index of the
first occurrence of `c` in `s`, or `-1`. -/
def Index (s : GoString) (c : Nat) : Int :=
  match s with
  | [] => -1
  | b :: rest =>
    if b = c then 0
    else
      let r := Index rest c
      if r < 0 then -1 else r + 1

/-- The call `strings.LastIndex(s, sep)` for a one-byte separator `c`: the index of the
last occurrence of `c` in `s`, or `-1`. -/
def LastIndex (s : GoString) (c : Nat) : Int :=
  match s with
  | [] => -1
  | b :: rest =>
    let r := LastIndex rest c
    if 0 ≤ r then r + 1
    else if b = c then 0 else -1

/-! ## Response envelope -/

/-- The struct `JsonBase`. -/
structure JsonBase where
  Message : GoString
  Success : Bool
  Code : GoString
deriving DecidableEq, Repr

/-- The struct `JsonExit`: `JsonBase` embedded, plus the payload `Data` of any type. -/
structure JsonExit (δ : Type) extends JsonBase where
  Data : δ

/-- Lines 52-63 of `JsonResult`: the object handed to `json.Marshal`. -/
def JsonResultObj {δ : Type} (message : GoString) (success : Bool) (data : δ)
    (code : GoString) : JsonExit δ :=
  let obj : JsonExit δ := { Message := message, Success := success, Code := code, Data := data }
  if code = [] then
    if success then { obj with Code := ascii "ok" }
    else { obj with Code := ascii "error" }
  else obj

/-- The function `JsonResult`. The JSON encoder is the parameter `marshal`, `none` being
its error; in that case the source calls `log.Fatal`, which ends the process: the
result is `none`. -/
def JsonResult {δ : Type} (marshal : JsonExit δ → Option GoString)
    (message : GoString) (success : Bool) (data : δ)
    (jsonpCallback : GoString) (code : GoString) : Option GoString :=
  match marshal (JsonResultObj message success data code) with
  | none => none
  | some jsonString =>
    if jsonpCallback ≠ [] then
      some (jsonpCallback ++ ascii "(" ++ jsonString ++ ascii ")")
    else some jsonString

/-- Go error values: those made by `errors.New` carry their text, those of
`encoding/json` are kept abstract. -/
inductive GoError (ε : Type) where
  | errorString (text : GoString) : GoError ε
  | json (e : ε) : GoError ε
deriving DecidableEq

/-- The function `JSONToStruct`. The JSON decoder is the parameter `unmarshal`: from the
text and the current target it gives the error, if any, and the target afterwards. -/
def JSONToStruct {ε τ : Type} (unmarshal : GoString → τ → Option ε × τ)
    (s : GoString) (v : τ) : Option (GoError ε) × τ :=
  let r := unmarshal s v
  (r.1.map GoError.json, r.2)

/-- The function `JSONPToStruct`: `none` is the panic of the slice expression. -/
def JSONPToStruct {ε τ : Type} (unmarshal : GoString → τ → Option ε × τ)
    (s : GoString) (v : τ) : Option (Option (GoError ε) × τ) :=
  let pos1 := Index s 40
  let pos2 := LastIndex s 41
  if -1 < pos1 ∧ -1 < pos2 then
    match goSlice s (pos1 + 1) pos2 with
    | none => none
    | some s1 => some (JSONToStruct unmarshal s1 v)
  else
    some (some (GoError.errorString (ascii "input is not valid jsonp string")), v)

/-! ## Strings -/

/-- The call `fmt.Sprintf("%c", b)` for a byte `b`: the UTF-8 encoding of the code
point `b`. -/
def sprintfC (b : Nat) : GoString :=
  if b < 128 then [b] else [192 + b / 64, 128 + b % 64]

/-- The function `ToUpperFirst`: `none` is the panic of `s[0]` on the empty string.
The subtraction `s[0]-32` is on bytes, modulo 256. -/
def ToUpperFirst (s : GoString) : Option GoString :=
  match s with
  | [] => none
  | s0 :: rest =>
    if s0 ≥ 97 ∧ s0 ≤ 122 then
      some (sprintfC ((s0 + 256 - 32) % 256) ++ rest)
    else some s

/-- Reduction of an integer to the range of `int64` (two's complement wrap-around). -/
def wrap64 (x : Int) : Int := (x + 2 ^ 63) % 2 ^ 64 - 2 ^ 63

/-- The function `SubString`, on the rune sequence `r = []rune(s)` of its argument; the
result stands for `string(r[start:end])`, and `none` is the panic of the slice
expression. The addition `start + length` wraps around as `int` does. -/
def SubString (r : List Nat) (start : Int) (length : Int) : Option (List Nat) :=
  let len : Int := r.length
  let end1 := wrap64 (start + length)
  let start1 := if start < 0 then 0 else start
  let end2 := if end1 > len then len else end1
  goSlice r start1 end2

/-! ## Float comparison

The arithmetic of `CompareFloat32` is that of `float64`. A value is embedded as its
exact rational value, an infinity or NaN, and every operation rounds its exact result
to the nearest `float64`, ties to even, as IEEE 754 prescribes. `math.Pow10`,
`math.Abs` and `math.Max` belong to the Go standard library and are embedded as they
are implemented there. -/

/-- A `float32` or `float64` value: a finite number by its exact rational value, an
infinity by its sign, or NaN. The sign of a zero is not kept: the two zeros compare
equal and `CompareFloat32` only compares. -/
inductive GoFloat where
  | finite (q : ℚ) : GoFloat
  | inf (neg : Bool) : GoFloat
  | nan : GoFloat
deriving DecidableEq

/-- Rounding of a rational to the nearest integer, ties to the even one. -/
def roundHalfEven (x : ℚ) : Int :=
  let f := ⌊x⌋
  if x - f < 1 / 2 then f
  else if 1 / 2 < x - f then f + 1
  else if f % 2 = 0 then f else f + 1

/-- Rounding of a positive rational to the grid of `float64` at its magnitude: 53
significant bits, and multiples of `2^-1074` below `2^-1022`. -/
def roundPos (q : ℚ) : ℚ :=
  let e := Int.log 2 q
  let qe := max (e - 52) (-1074)
  (roundHalfEven (q / 2 ^ qe) : ℚ) * 2 ^ qe

/-- Rounding of a rational to the nearest `float64` value, ties to even, before the
overflow check. -/
def roundQ (q : ℚ) : ℚ :=
  if q = 0 then 0
  else if q < 0 then -roundPos (-q)
  else roundPos q

/-- The `float64` result of an operation whose exact result is `q`: the rounded value,
or the infinity of its sign when the rounded value is beyond the largest `float64`. -/
def round64 (q : ℚ) : GoFloat :=
  if 2 ^ 1024 ≤ |roundQ q| then GoFloat.inf (decide (q < 0))
  else GoFloat.finite (roundQ q)

/-- The subtraction of `float64`. -/
def fsub : GoFloat → GoFloat → GoFloat
  | GoFloat.finite a, GoFloat.finite b => round64 (a - b)
  | GoFloat.finite _, GoFloat.inf n => GoFloat.inf (!n)
  | GoFloat.inf n, GoFloat.finite _ => GoFloat.inf n
  | GoFloat.inf n, GoFloat.inf m => if n = m then GoFloat.nan else GoFloat.inf n
  | GoFloat.nan, _ => GoFloat.nan
  | _, GoFloat.nan => GoFloat.nan

/-- The comparison `x > y` of `float64`: false when either side is NaN. -/
def fgt : GoFloat → GoFloat → Bool
  | GoFloat.finite a, GoFloat.finite b => decide (b < a)
  | GoFloat.finite _, GoFloat.inf n => n
  | GoFloat.inf n, GoFloat.finite _ => !n
  | GoFloat.inf n, GoFloat.inf m => !n && m
  | GoFloat.nan, _ => false
  | _, GoFloat.nan => false

/-- The comparison `x == y` of `float64`: false when either side is NaN. -/
def feq : GoFloat → GoFloat → Bool
  | GoFloat.finite a, GoFloat.finite b => decide (a = b)
  | GoFloat.inf n, GoFloat.inf m => decide (n = m)
  | _, _ => false

/-- The call `math.Abs(x)`. -/
def Abs : GoFloat → GoFloat
  | GoFloat.finite q => GoFloat.finite |q|
  | GoFloat.inf _ => GoFloat.inf false
  | GoFloat.nan => GoFloat.nan

/-- The call `math.Max(x, y)`: `+Inf` when either is `+Inf`, else NaN when either is
NaN, else the larger. -/
def Max (x y : GoFloat) : GoFloat :=
  if x = GoFloat.inf false ∨ y = GoFloat.inf false then GoFloat.inf false
  else if x = GoFloat.nan ∨ y = GoFloat.nan then GoFloat.nan
  else if fgt x y = true then x
  else y

/-- The table `pow10tab` of `math`: the `float64` constants `1e0` to `1e31`. -/
def pow10tab (i : Nat) : ℚ := roundQ ((10 : ℚ) ^ i)

/-- The table `pow10postab32` of `math`: the `float64` constants `1e0`, `1e32`, ...,
`1e288`. -/
def pow10postab32 (i : Nat) : ℚ := roundQ ((10 : ℚ) ^ (32 * i))

/-- The table `pow10negtab32` of `math`: the `float64` constants `1e-0`, `1e-32`, ...,
`1e-320`. -/
def pow10negtab32 (i : Nat) : ℚ := roundQ ((10 : ℚ) ^ (-(32 * (i : Int))))

/-- The call `math.Pow10(n)`: a product or a quotient of two table entries, computed
in `float64`; `+Inf` above `10^308` and 0 below `10^-323`. -/
def Pow10 (n : Int) : GoFloat :=
  if 0 ≤ n ∧ n ≤ 308 then
    round64 (pow10postab32 (n.toNat / 32) * pow10tab (n.toNat % 32))
  else if -323 ≤ n ∧ n ≤ 0 then
    round64 (pow10negtab32 ((-n).toNat / 32) / pow10tab ((-n).toNat % 32))
  else if n > 0 then GoFloat.inf false
  else GoFloat.finite 0

/-- The function `CompareFloat32`: the arguments are the `float64` conversions of the
two `float32`, which are exact. -/
def CompareFloat32 (f1 f2 : GoFloat) (precision : Int) : Int :=
  let precision1 := if precision < 0 then 0 else precision
  let min := Pow10 (-precision1)
  let diff := Abs (fsub f1 f2)
  if feq (Max f1 f2) f1 = true ∧ fgt diff min = true then 1
  else if feq (Max f1 f2) f2 = true ∧ fgt diff min = true then -1
  else 0

/-- Is the rational the value of a finite `float32`: an integer of at most 24 bits times a
power of two from `2^-149` to `2^104`? -/
def isFloat32 (q : ℚ) : Prop :=
  ∃ m : Int, ∃ e : Int, |m| < 2 ^ 24 ∧ -149 ≤ e ∧ e ≤ 104 ∧ q = (m : ℚ) * 2 ^ e


/-! ## String to integer conversion

`strconv.Atoi` belongs to the Go standard library; it is embedded here as it is
implemented there for a 64-bit `int`: a fast path for texts of 1 to 18 bytes and
`ParseInt(s, 10, 0)` for the others. -/

/-- The two errors of `strconv`: `invalid` is `ErrSyntax`, `outOfRange` is `ErrRange`. -/
inductive NumError where
  | invalid : NumError
  | outOfRange : NumError
deriving DecidableEq, Repr

/-- The largest `uint64`. -/
def maxUint64 : Nat := 2 ^ 64 - 1

/-- The helper `lower(c)` of `strconv`: `c | ('x' - 'X')`. -/
def lower (c : Nat) : Nat := c ||| 32

/-- The digit loop of `strconv.ParseUint` for base 10 and bit size 64: `n` is the value
read so far. The result is the pair (value, error) that `ParseUint` returns. -/
def parseUintLoop : List Nat → Nat → Nat × Option NumError
  | [], n => (n, none)
  | c :: rest, n =>
    let d : Option Nat :=
      if 48 ≤ c ∧ c ≤ 57 then some (c - 48)
      else if 97 ≤ lower c ∧ lower c ≤ 122 then some (lower c - 97 + 10)
      else none
    match d with
    | none => (0, some NumError.invalid)
    | some d =>
      if d ≥ 10 then (0, some NumError.invalid)
      else if n ≥ maxUint64 / 10 + 1 then (maxUint64, some NumError.outOfRange)
      else
        let n10 := (n * 10) % 2 ^ 64
        let n1 := (n10 + d) % 2 ^ 64
        if n1 < n10 ∨ n1 > maxUint64 then (maxUint64, some NumError.outOfRange)
        else parseUintLoop rest n1

/-- The call `strconv.ParseUint(s, 10, 0)` with a 64-bit `int`. -/
def ParseUint (s : GoString) : Nat × Option NumError :=
  if s = [] then (0, some NumError.invalid)
  else parseUintLoop s 0

/-- The second half of `strconv.ParseInt(s, 10, 0)` with a 64-bit `int` ("convert
unsigned and check range"): `neg` is the sign picked off and `s1` the text after it. -/
def parseIntRange (neg : Bool) (s1 : GoString) : Int × Option NumError :=
  let r := ParseUint s1
  if r.2 ≠ none ∧ r.2 ≠ some NumError.outOfRange then (0, r.2)
  else
    let un := r.1
    let cutoff : Nat := 2 ^ 63
    if neg = false ∧ un ≥ cutoff then ((cutoff : Int) - 1, some NumError.outOfRange)
    else if neg = true ∧ un > cutoff then (-(cutoff : Int), some NumError.outOfRange)
    else
      let n := wrap64 un
      (if neg = true then wrap64 (-n) else n, none)

/-- The call `strconv.ParseInt(s, 10, 0)` with a 64-bit `int`: the first half picks off
the leading sign. -/
def ParseInt (s : GoString) : Int × Option NumError :=
  match s with
  | [] => (0, some NumError.invalid)
  | s0 :: rest =>
    if s0 = 43 then parseIntRange false rest
    else if s0 = 45 then parseIntRange true rest
    else parseIntRange false s

/-- The digit loop of the fast path of `strconv.Atoi`: `ch -= '0'` is on bytes, modulo
256, and `n = n*10 + int(ch)` on `int`. `none` is the syntax error. -/
def atoiLoop : List Nat → Int → Option Int
  | [], n => some n
  | ch :: rest, n =>
    let ch1 := (ch + 256 - 48) % 256
    if ch1 > 9 then none
    else atoiLoop rest (wrap64 (n * 10 + ch1))

/-- The call `strconv.Atoi(s)` with a 64-bit `int`: the pair (value, error). -/
def Atoi (s : GoString) : Int × Option NumError :=
  match s with
  | [] => ParseInt s
  | s0 :: rest =>
    if s.length < 19 then
      let s1 := if s0 = 45 ∨ s0 = 43 then rest else s
      if (s0 = 45 ∨ s0 = 43) ∧ s1.length < 1 then (0, some NumError.invalid)
      else
        match atoiLoop s1 0 with
        | none => (0, some NumError.invalid)
        | some n => (if s0 = 45 then wrap64 (-n) else n, none)
    else ParseInt s

/-- The function `StrToInt`. -/
def StrToInt (s : GoString) : Int :=
  let r := Atoi s
  if r.2 ≠ none then 0
  else wrap64 r.1

/-! ### The specification of `StrToInt`, in its own words -/

/-- Is the byte a decimal digit, "0" to "9"? -/
def isDecimalDigit (c : Nat) : Bool := decide (48 ≤ c ∧ c ≤ 57)

/-- The number written by a sequence of decimal digits, read after the value `n`. -/
def decimalValue (ds : List Nat) (n : Nat) : Nat :=
  ds.foldl (fun acc c => acc * 10 + (c - 48)) n

/-- The integer written by one or more decimal digits, negated when `neg` is set;
`none` when the text is empty or has a byte that is not a digit. -/
def signedValue (neg : Bool) (ds : GoString) : Option Int :=
  if ds ≠ [] ∧ ds.all isDecimalDigit = true then
    some (if neg = true then -(decimalValue ds 0 : Int) else (decimalValue ds 0 : Int))
  else none

/-- The integer denoted by a base-10 literal, an optional sign ("+" or "-") followed by
one or more decimal digits; `none` when the text is not such a literal. -/
def literalValue (s : GoString) : Option Int :=
  match s with
  | [] => none
  | s0 :: rest =>
    if s0 = 43 then signedValue false rest
    else if s0 = 45 then signedValue true rest
    else signedValue false s

/-- The value within the signed 64-bit range, and 0 when there is none. -/
def inRangeOrZero (v : Option Int) : Int :=
  match v with
  | none => 0
  | some v => if -(2 : Int) ^ 63 ≤ v ∧ v ≤ 2 ^ 63 - 1 then v else 0

/-- What the specification says `StrToInt` returns: the integer denoted by a valid
literal that is within the signed 64-bit range, and 0 for every other text. -/
def StrToIntSpec (s : GoString) : Int := inRangeOrZero (literalValue s)

/-- Every element of the text is a byte. -/
def validBytes (s : GoString) : Prop := ∀ b ∈ s, b < 256

instance (s : GoString) : Decidable (validBytes s) := by
  unfold validBytes
  infer_instance

/-! ## Time formatting

The package `time` belongs to the Go standard library. A `time.Time` is embedded as
its Unix seconds and its nanoseconds within the second; the calendar fields are
computed as `time` computes them (`Time.abs`, `absDate`, `absClock`), on the seconds
since the "absolute" zero year of the package, an unsigned 64-bit number; `Format` is
embedded for the layout elements the two layouts of `util.go` use. -/

/-- A `time.Time`: seconds since the Unix epoch and nanoseconds within that second. -/
structure Time where
  sec : Int
  nsec : Int
deriving DecidableEq, Repr

/-- The call `time.Unix(sec, nsec)`: a `nsec` outside `[0, 1e9)` is carried into the
seconds. The division is Go's, truncated toward zero. -/
def Unix (sec nsec : Int) : Time :=
  if nsec < 0 ∨ nsec ≥ 1000000000 then
    let n := Int.tdiv nsec 1000000000
    let sec1 := sec + n
    let nsec1 := nsec - n * 1000000000
    if nsec1 < 0 then { sec := sec1 - 1, nsec := nsec1 + 1000000000 }
    else { sec := sec1, nsec := nsec1 }
  else { sec := sec, nsec := nsec }

/-- The offset of the zone `time.FixedZone("CST", 8*3600)`, in seconds east of UTC. -/
def cstOffset : Int := 8 * 3600

/-- The constant `unixToInternal + internalToAbsolute` of `time`: the seconds from the
absolute zero year to the Unix epoch. -/
def unixToAbsolute : Int := 9223372028715321600

/-- The constant `absoluteZeroYear` of `time`. -/
def absoluteZeroYear : Int := -292277022399

/-- The method `abs` of a `Time` in the fixed zone: the local seconds since the absolute
zero year, as a `uint64`. -/
def absSeconds (t : Time) : Nat :=
  ((t.sec + cstOffset + unixToAbsolute) % 2 ^ 64).toNat

/-- The year and the day of the year, from 0, for a count of absolute seconds: the
first part of `absDate`, which cuts off the cycles of 400, 100, 4 and 1 years. -/
def absYearDay (abs : Nat) : Int × Nat :=
  let d := abs / 86400
  let n := d / 146097
  let y := 400 * n
  let d1 := d - 146097 * n
  let n1 := d1 / 36524
  let n2 := n1 - n1 / 4
  let y1 := y + 100 * n2
  let d2 := d1 - 36524 * n2
  let n3 := d2 / 1461
  let y2 := y1 + 4 * n3
  let d3 := d2 - 1461 * n3
  let n4 := d3 / 365
  let n5 := n4 - n4 / 4
  let y3 := y2 + n5
  let d4 := d3 - 365 * n5
  ((y3 : Int) + absoluteZeroYear, d4)

/-- The function `isLeap` of `time`; the remainders are Go's, truncated toward zero. -/
def isLeap (year : Int) : Bool :=
  decide (Int.tmod year 4 = 0 ∧ (Int.tmod year 100 ≠ 0 ∨ Int.tmod year 400 = 0))

/-- The table `daysBefore` of `time`: the days of a non-leap year before each month. -/
def daysBefore : List Nat := [0, 31, 59, 90, 120, 151, 181, 212, 243, 273, 304, 334, 365]

/-- The month (1 to 12) and the day of the month for a year and a day of the year: the
second part of `absDate`. -/
def absMonthDay (year : Int) (yday : Nat) : Int × Int :=
  if isLeap year = true ∧ yday = 31 + 29 - 1 then (2, 29)
  else
    let day := if isLeap year = true ∧ yday > 31 + 29 - 1 then yday - 1 else yday
    let month := day / 31
    let end1 := daysBefore.getD (month + 1) 0
    let mb : Nat × Nat :=
      if day ≥ end1 then (month + 1, end1) else (month, daysBefore.getD month 0)
    (((mb.1 + 1 : Nat) : Int), (day : Int) - (mb.2 : Int) + 1)

/-- The method `Year` of a `Time` shown in the fixed zone. -/
def Year (t : Time) : Int := (absYearDay (absSeconds t)).1

/-- The method `Month` of a `Time` shown in the fixed zone. -/
def Month (t : Time) : Int :=
  (absMonthDay (absYearDay (absSeconds t)).1 (absYearDay (absSeconds t)).2).1

/-- The method `Day` of a `Time` shown in the fixed zone. -/
def Day (t : Time) : Int :=
  (absMonthDay (absYearDay (absSeconds t)).1 (absYearDay (absSeconds t)).2).2

/-- The function `absClock` of `time`: hour, minute and second of the day. -/
def absClock (abs : Nat) : Nat × Nat × Nat :=
  let sec := abs % 86400
  let hour := sec / 3600
  let sec1 := sec - hour * 3600
  let min := sec1 / 60
  let sec2 := sec1 - min * 60
  (hour, min, sec2)

/-- The decimal digits of `u`, least significant first, as the loop of `appendInt`
writes them: at least one digit; `fuel` bounds the number of digits. -/
def utoaRev : Nat → Nat → List Nat
  | 0, u => [48 + u % 10]
  | fuel + 1, u => if u ≥ 10 then (48 + u % 10) :: utoaRev fuel (u / 10) else [48 + u]

/-- The helper `appendInt(b, x, width)` of `time`: the decimal text of `x`, with a
minus sign when negative and zero-padded to `width` digits. -/
def appendInt (x : Int) (width : Nat) : GoString :=
  let digits := (utoaRev 20 x.natAbs).reverse
  (if x < 0 then [45] else []) ++ List.replicate (width - digits.length) 48 ++ digits

/-- The `w` low-order decimal digits of `u`, most significant first. -/
def fixedDigits : Nat → Nat → GoString
  | 0, _ => []
  | w + 1, u => fixedDigits w (u / 10) ++ [48 + u % 10]

/-- The trimming loop of `formatNano`: `for n > 0 && buf[n-1] == '0' { n-- }`. -/
def trimZeros (buf : GoString) : Nat → Nat
  | 0 => 0
  | n + 1 => if buf.getD n 0 = 48 then trimZeros buf n else n + 1

/-- The helper `formatNano(b, nanosec, n, trim)` of `time`: the fractional second to
`n` digits, with the trailing zeros and then an isolated "." removed when `trim` is set
(the layout element `.999`). -/
def formatNano (nanosec : Nat) (n : Nat) (trim : Bool) : GoString :=
  let buf := fixedDigits 9 nanosec
  let n1 := if n > 9 then 9 else n
  let n2 := if trim = true then trimZeros buf n1 else n1
  if trim = true ∧ n2 = 0 then []
  else 46 :: buf.take n2

/-- The layout elements used by the layouts of `util.go`. -/
inductive Chunk where
  | text (b : GoString) : Chunk
  | stdLongYear : Chunk
  | stdZeroMonth : Chunk
  | stdZeroDay : Chunk
  | stdHour : Chunk
  | stdZeroMinute : Chunk
  | stdZeroSecond : Chunk
  | stdFracSecond9 (n : Nat) : Chunk
deriving DecidableEq

/-- What `Format` appends for one layout element, for a time shown in the fixed zone. -/
def appendChunk (t : Time) : Chunk → GoString
  | Chunk.text b => b
  | Chunk.stdLongYear => appendInt (Year t) 4
  | Chunk.stdZeroMonth => appendInt (Month t) 2
  | Chunk.stdZeroDay => appendInt (Day t) 2
  | Chunk.stdHour => appendInt ((absClock (absSeconds t)).1 : Nat) 2
  | Chunk.stdZeroMinute => appendInt ((absClock (absSeconds t)).2.1 : Nat) 2
  | Chunk.stdZeroSecond => appendInt ((absClock (absSeconds t)).2.2 : Nat) 2
  | Chunk.stdFracSecond9 n => formatNano t.nsec.toNat n true

/-- The layout "2006-01-02 15:04:05" as `Format` reads it. -/
def layoutSeconds : List Chunk :=
  [Chunk.stdLongYear, Chunk.text (ascii "-"), Chunk.stdZeroMonth, Chunk.text (ascii "-"),
   Chunk.stdZeroDay, Chunk.text (ascii " "), Chunk.stdHour, Chunk.text (ascii ":"),
   Chunk.stdZeroMinute, Chunk.text (ascii ":"), Chunk.stdZeroSecond]

/-- The layout "2006-01-02 15:04:05.999" as `Format` reads it. -/
def layoutMillis : List Chunk := layoutSeconds ++ [Chunk.stdFracSecond9 3]

/-- The expression `t.In(cstZone).Format(layout)`, the layout given as its elements. -/
def FormatCST (t : Time) (layout : List Chunk) : GoString :=
  layout.foldr (fun c acc => appendChunk t c ++ acc) []

/-- The function `GetTimeFromatString`, the layout given as its elements. -/
def GetTimeFromatString (t : Time) (format : List Chunk) : GoString :=
  FormatCST t format

/-- The function `GetTimeString`: the layout "2006-01-02 15:04:05" in the fixed zone. -/
def GetTimeString (t : Time) : GoString :=
  FormatCST t layoutSeconds

/-- The call `strings.Repeat(s, count)`: it panics on a negative count. -/
def Repeat (s : GoString) (count : Int) : Option GoString :=
  if count < 0 then none
  else some (Nat.repeat (fun acc => s ++ acc) count.toNat [])

/-- The function `GetTimeMsString`; `none` is the panic of `strings.Repeat`. The
division and remainder of `ms` are Go's, truncated toward zero. -/
def GetTimeMsString (ms : Int) : Option GoString :=
  let f := ascii "2006-01-02 15:04:05.999"
  let s := GetTimeFromatString (Unix (Int.tdiv ms 1000) (Int.tmod ms 1000 * 1000000)) layoutMillis
  let s1 := if 19 = s.length then s ++ ascii "." else s
  match Repeat (ascii "0") ((f.length : Int) - (s1.length : Int)) with
  | none => none
  | some z => some (s1 ++ z)

/-! ## Theorems: strings and slices -/

theorem wrap64_of_range (x : Int) (h1 : -(2 : Int) ^ 63 ≤ x) (h2 : x < 2 ^ 63) :
    wrap64 x = x := by
  unfold wrap64
  norm_num only at h1 h2 ⊢
  omega

theorem Index_nonneg_or (s : GoString) (c : Nat) : Index s c = -1 ∨ 0 ≤ Index s c := by
  induction s with
  | nil => left; rfl
  | cons b rest ih =>
    unfold Index
    by_cases hb : b = c
    · right; simp [hb]
    · rcases ih with h | h
      · left; simp [hb, h]
      · right
        simp only [hb, if_false]
        split <;> omega

theorem LastIndex_nonneg_or (s : GoString) (c : Nat) :
    LastIndex s c = -1 ∨ 0 ≤ LastIndex s c := by
  induction s with
  | nil => left; rfl
  | cons b rest ih =>
    unfold LastIndex
    rcases ih with h | h
    · by_cases hb : b = c
      · right; simp [h, hb]
      · left; simp [h, hb]
    · right
      simp only [h, if_true]
      omega

theorem Index_of_not_mem (s : GoString) (c : Nat) (h : c ∉ s) : Index s c = -1 := by
  induction s with
  | nil => rfl
  | cons b rest ih =>
    have hb : b ≠ c := fun e => h (by simp [e])
    have hr : c ∉ rest := fun e => h (by simp [e])
    unfold Index
    simp [hb, ih hr]

theorem LastIndex_of_not_mem (s : GoString) (c : Nat) (h : c ∉ s) : LastIndex s c = -1 := by
  induction s with
  | nil => rfl
  | cons b rest ih =>
    have hb : b ≠ c := fun e => h (by simp [e])
    have hr : c ∉ rest := fun e => h (by simp [e])
    unfold LastIndex
    simp [hb, ih hr]

theorem Index_append_cons (a b : GoString) (c : Nat) (h : c ∉ a) :
    Index (a ++ c :: b) c = a.length := by
  induction a with
  | nil => simp [Index]
  | cons x rest ih =>
    have hx : x ≠ c := fun e => h (by simp [e])
    have hr : c ∉ rest := fun e => h (by simp [e])
    have := ih hr
    simp only [List.cons_append, List.length_cons]
    unfold Index
    simp only [hx, if_false, this]
    split
    · omega
    · push_cast; rfl

theorem LastIndex_append_singleton (a : GoString) (c : Nat) :
    LastIndex (a ++ [c]) c = a.length := by
  induction a with
  | nil => simp [LastIndex]
  | cons x rest ih =>
    simp only [List.cons_append, List.length_cons]
    unfold LastIndex
    simp only [ih]
    split
    · push_cast; rfl
    · omega

theorem goSlice_middle {α : Type} (a m b : List α) :
    goSlice (a ++ m ++ b) (a.length : Int) ((a.length : Int) + m.length) = some m := by
  unfold goSlice
  have h : (0 : Int) ≤ a.length ∧ (a.length : Int) ≤ (a.length : Int) + m.length ∧
      (a.length : Int) + m.length ≤ ((a ++ m ++ b).length : Int) := by
    simp only [List.length_append]
    push_cast
    omega
  rw [if_pos h]
  have e1 : ((a.length : Int)).toNat = a.length := by simp
  have e2 : ((a.length : Int) + m.length).toNat = a.length + m.length := by
    omega
  rw [e1, e2]
  simp [List.append_assoc]

theorem Index_lt_length (s : GoString) (c : Nat) : Index s c < (s.length : Int) ∨ s = [] := by
  induction s with
  | nil => right; rfl
  | cons b rest ih =>
    left
    unfold Index
    simp only [List.length_cons]
    push_cast
    by_cases hb : b = c
    · rw [if_pos hb]
      omega
    · rw [if_neg hb]
      split
      · omega
      · rcases ih with h | h
        · omega
        · subst h
          rename_i hneg
          exact absurd (show Index [] c < 0 by unfold Index; omega) hneg

theorem LastIndex_lt_length (s : GoString) (c : Nat) :
    LastIndex s c < (s.length : Int) ∨ s = [] := by
  induction s with
  | nil => right; rfl
  | cons b rest ih =>
    left
    unfold LastIndex
    simp only [List.length_cons]
    push_cast
    split
    · rcases ih with h | h
      · omega
      · subst h
        rename_i hpos
        exact absurd hpos (show ¬ (0 ≤ LastIndex [] c) by unfold LastIndex; omega)
    · split <;> omega

theorem JSONPToStruct_of_ordered {ε τ : Type} (unmarshal : GoString → τ → Option ε × τ)
    (s : GoString) (v : τ) (h1 : 0 ≤ Index s 40) (h2 : Index s 40 < LastIndex s 41) :
    JSONPToStruct unmarshal s v
      = some (JSONToStruct unmarshal
          ((s.drop (Index s 40 + 1).toNat).take
            ((LastIndex s 41).toNat - (Index s 40 + 1).toNat)) v) := by
  unfold JSONPToStruct
  dsimp only
  rw [if_pos ⟨by omega, by omega⟩]
  have hl : LastIndex s 41 ≤ (s.length : Int) := by
    rcases LastIndex_lt_length s 41 with h | h
    · omega
    · subst h
      exact absurd h2 (by decide)
  unfold goSlice
  rw [if_pos ⟨by omega, by omega, hl⟩]

theorem JSONPToStruct_of_reversed {ε τ : Type} (unmarshal : GoString → τ → Option ε × τ)
    (s : GoString) (v : τ) (h1 : 0 ≤ LastIndex s 41) (h2 : LastIndex s 41 < Index s 40) :
    JSONPToStruct unmarshal s v = none := by
  unfold JSONPToStruct
  dsimp only
  rw [if_pos ⟨by omega, by omega⟩]
  unfold goSlice
  rw [if_neg (by omega)]

/-! ## Theorems: response envelope -/

/-- C1: the object that `JsonResult` serializes carries the supplied code when it is
non-empty, and otherwise "ok" (success) or "error" (failure); its code is never empty;
message, success flag and data are the arguments, unchanged; and with an empty callback
`JsonResult` is the encoder applied to exactly that object. -/
theorem C1_JsonResult_code {δ : Type} (marshal : JsonExit δ → Option GoString)
    (message : GoString) (success : Bool) (data : δ) (code : GoString) :
    (JsonResultObj message success data code).Code
        = (if code ≠ [] then code else if success then ascii "ok" else ascii "error")
      ∧ (JsonResultObj message success data code).Code ≠ []
      ∧ (JsonResultObj message success data code).Message = message
      ∧ (JsonResultObj message success data code).Success = success
      ∧ (JsonResultObj message success data code).Data = data
      ∧ JsonResult marshal message success data [] code
          = marshal (JsonResultObj message success data code) := by
  refine ⟨?_, ?_, ?_, ?_, ?_, ?_⟩
  · unfold JsonResultObj
    by_cases hc : code = [] <;> cases success <;> simp [hc]
  · unfold JsonResultObj
    by_cases hc : code = [] <;> cases success <;> simp [hc, ascii]
  · unfold JsonResultObj
    by_cases hc : code = [] <;> cases success <;> simp [hc]
  · unfold JsonResultObj
    by_cases hc : code = [] <;> cases success <;> simp [hc]
  · unfold JsonResultObj
    by_cases hc : code = [] <;> cases success <;> simp [hc]
  · unfold JsonResult
    cases marshal (JsonResultObj message success data code) <;> simp

/-- C2: when serialization succeeds, so that `JsonResult` with the empty callback
returns the JSON text `j`, then `JsonResult` with a non-empty callback `cb` returns
`cb` followed by "(" followed by `j` followed by ")", and `j` is the bare output of the
encoder, with no wrapper. -/
theorem C2_JsonResult_jsonp {δ : Type} (marshal : JsonExit δ → Option GoString)
    (message : GoString) (success : Bool) (data : δ) (cb code j : GoString)
    (h : JsonResult marshal message success data [] code = some j) :
    (cb ≠ [] → JsonResult marshal message success data cb code
        = some (cb ++ ascii "(" ++ j ++ ascii ")"))
      ∧ (cb = [] → JsonResult marshal message success data cb code = some j)
      ∧ marshal (JsonResultObj message success data code) = some j := by
  unfold JsonResult at h ⊢
  cases hm : marshal (JsonResultObj message success data code) with
  | none => simp [hm] at h
  | some j1 =>
    simp only [hm] at h ⊢
    simp only [ne_eq, not_true_eq_false, if_false, Option.some.injEq] at h
    subst h
    refine ⟨fun hcb => ?_, fun hcb => ?_, rfl⟩
    · simp [hcb]
    · simp [hcb]

/-- Witness of C2: an encoder that answers a fixed text, wrapped in the callback "cb". -/
theorem C2_JsonResult_jsonp_witness :
    JsonResult (fun _ : JsonExit Nat => some (ascii "J")) (ascii "m") true 7 [] [] = some (ascii "J")
      ∧ JsonResult (fun _ : JsonExit Nat => some (ascii "J")) (ascii "m") true 7 (ascii "cb") []
          = some (ascii "cb(J)") :=
  ⟨by decide,
   (C2_JsonResult_jsonp (fun _ : JsonExit Nat => some (ascii "J")) (ascii "m") true 7
      (ascii "cb") [] (ascii "J") (by decide)).1 (by decide)⟩

/-- C3: for a callback name `cb` without "(" and any text `j`, `JSONPToStruct` on
`cb + "(" + j + ")"` does not panic and returns what `JSONToStruct` returns on `j`:
the same error or success and the same target. -/
theorem C3_JSONPToStruct_wrapped {ε τ : Type} (unmarshal : GoString → τ → Option ε × τ)
    (cb j : GoString) (v : τ) (h : 40 ∉ cb) :
    JSONPToStruct unmarshal (cb ++ ascii "(" ++ j ++ ascii ")") v
      = some (JSONToStruct unmarshal j v) := by
  have e40 : ascii "(" = [40] := by decide
  have e41 : ascii ")" = [41] := by decide
  have hi : Index (cb ++ ascii "(" ++ j ++ ascii ")") 40 = cb.length := by
    rw [e40, e41]
    have := Index_append_cons cb (j ++ [41]) 40 h
    simpa [List.append_assoc] using this
  have hl : LastIndex (cb ++ ascii "(" ++ j ++ ascii ")") 41
      = ((cb ++ [40]).length : Int) + j.length := by
    rw [e40, e41]
    have := LastIndex_append_singleton (cb ++ [40] ++ j) 41
    rw [this]
    simp only [List.length_append]
    push_cast
    rfl
  have hs : goSlice (cb ++ ascii "(" ++ j ++ ascii ")") ((cb.length : Int) + 1)
      (((cb ++ [40]).length : Int) + j.length) = some j := by
    rw [e40, e41]
    have := goSlice_middle (cb ++ [40]) j [41]
    simpa using this
  unfold JSONPToStruct
  simp only [hi, hl, hs]
  rw [if_pos]
  constructor
  · omega
  · simp only [List.length_append]
    push_cast
    omega

/-- Witness of C3: the callback "cb" around the text "1". -/
theorem C3_JSONPToStruct_wrapped_witness :
    40 ∉ ascii "cb"
      ∧ JSONPToStruct (fun (s : GoString) (_ : GoString) => ((none : Option Unit), s))
          (ascii "cb" ++ ascii "(" ++ ascii "1" ++ ascii ")") []
        = some (JSONToStruct (fun (s : GoString) (_ : GoString) => ((none : Option Unit), s))
            (ascii "1") []) :=
  ⟨by decide, C3_JSONPToStruct_wrapped _ (ascii "cb") (ascii "1") [] (by decide)⟩

/-- C4: for a text without "(" or without ")", `JSONPToStruct` returns the error
"input is not valid jsonp string" and the target as it was, whatever the decoder is:
the decoder is not consulted. -/
theorem C4_JSONPToStruct_invalid {ε τ : Type} (unmarshal : GoString → τ → Option ε × τ)
    (s : GoString) (v : τ) (h : 40 ∉ s ∨ 41 ∉ s) :
    JSONPToStruct unmarshal s v
      = some (some (GoError.errorString (ascii "input is not valid jsonp string")), v) := by
  unfold JSONPToStruct
  rcases h with h | h
  · simp [Index_of_not_mem s 40 h]
  · simp [LastIndex_of_not_mem s 41 h]

/-- Witness of C4: the text "not wrapped", with a decoder that would overwrite the target. -/
theorem C4_JSONPToStruct_invalid_witness :
    (40 ∉ ascii "not wrapped" ∨ 41 ∉ ascii "not wrapped")
      ∧ JSONPToStruct (fun (s : GoString) (_ : GoString) => ((none : Option Unit), s))
          (ascii "not wrapped") (ascii "old")
        = some (some (GoError.errorString (ascii "input is not valid jsonp string")),
            ascii "old") :=
  ⟨by decide, C4_JSONPToStruct_invalid _ (ascii "not wrapped") (ascii "old") (by decide)⟩

/-- C5 (the code at the failing input): on the text ")(", which has both delimiters,
the first "(" is at index 1 and the last ")" at index 0, the slice expression
`s[2:0]` panics, and `JSONPToStruct` returns nothing, for every decoder and target. -/
theorem C5_JSONPToStruct_panics {ε τ : Type} (unmarshal : GoString → τ → Option ε × τ)
    (v : τ) :
    40 ∈ ascii ")(" ∧ 41 ∈ ascii ")("
      ∧ Index (ascii ")(") 40 = 1 ∧ LastIndex (ascii ")(") 41 = 0
      ∧ JSONPToStruct unmarshal (ascii ")(") v = none := by
  refine ⟨by decide, by decide, by decide, by decide, ?_⟩
  unfold JSONPToStruct
  have h1 : Index (ascii ")(") 40 = 1 := by decide
  have h2 : LastIndex (ascii ")(") 41 = 0 := by decide
  have h3 : goSlice (ascii ")(") (1 + 1) 0 = none := by decide
  simp only [h1, h2, h3]
  rw [if_pos (by decide)]

/-! ## Theorems: strings -/

theorem ToUpperFirst_cons (s0 : Nat) (rest : GoString) :
    ToUpperFirst (s0 :: rest)
      = some (if 97 ≤ s0 ∧ s0 ≤ 122 then (s0 - 32) :: rest else s0 :: rest) := by
  unfold ToUpperFirst
  dsimp only
  by_cases h : s0 ≥ 97 ∧ s0 ≤ 122
  · have e : (s0 + 256 - 32) % 256 = s0 - 32 := by omega
    have hlt : s0 - 32 < 128 := by omega
    rw [if_pos h, if_pos ⟨h.1, h.2⟩, e]
    unfold sprintfC
    rw [if_pos hlt]
    rfl
  · rw [if_neg h, if_neg (fun hc => h ⟨hc.1, hc.2⟩)]

theorem SubString_of_start_le (r : List Nat) (start length : Int)
    (h0 : 0 ≤ start) (hl : 0 ≤ length) (hs : start ≤ (r.length : Int))
    (hov : start + length < 2 ^ 63) :
    SubString r start length = some ((r.drop start.toNat).take length.toNat) := by
  unfold SubString
  dsimp only
  rw [wrap64_of_range (start + length) (by norm_num only; omega) hov]
  rw [if_neg (by omega)]
  unfold goSlice
  by_cases he : start + length > (r.length : Int)
  · rw [if_pos he, if_pos ⟨h0, hs, le_refl _⟩]
    congr 1
    have hlen : (r.drop start.toNat).length = r.length - start.toNat := List.length_drop _ _
    rw [List.take_of_length_le (by rw [hlen]; omega),
      List.take_of_length_le (by rw [hlen]; omega)]
  · rw [if_neg he, if_pos ⟨h0, by omega, by omega⟩]
    congr 2
    omega

theorem SubString_of_start_gt (r : List Nat) (start length : Int)
    (hl : 0 ≤ length) (hs : (r.length : Int) < start) (hov : start + length < 2 ^ 63) :
    SubString r start length = none := by
  unfold SubString
  dsimp only
  rw [wrap64_of_range (start + length) (by norm_num only; omega) hov]
  rw [if_neg (by omega), if_pos (by omega)]
  unfold goSlice
  rw [if_neg (by omega)]

/-- C9 (the code at the failing input): on the empty string `ToUpperFirst` panics at
`s[0]` instead of returning the empty string; on "abc" it returns "Abc". -/
theorem C9_ToUpperFirst_empty_panics :
    ToUpperFirst [] = none ∧ ToUpperFirst (ascii "abc") = some (ascii "Abc") := by
  constructor <;> decide

/-- C10 (the code at the failing input): for the three characters "abc", start 4 and
length 1, the end is clamped to 3, the slice expression `r[4:3]` panics, and
`SubString` returns nothing instead of the empty string; with start 3 it returns the
empty string and with start 1 the one character "b". -/
theorem C10_SubString_panics :
    SubString (ascii "abc") 4 1 = none
      ∧ SubString (ascii "abc") 3 1 = some []
      ∧ SubString (ascii "abc") 1 1 = some (ascii "b") := by
  refine ⟨by decide, by decide, by decide⟩


/-! ## Theorems: float comparison -/

theorem roundHalfEven_of_near (x : ℚ) (m : Int) (h : |x - m| < 1 / 2) :
    roundHalfEven x = m := by
  have h1 := (abs_lt.mp h).1
  have h2 := (abs_lt.mp h).2
  unfold roundHalfEven
  dsimp only
  by_cases hx : (m : ℚ) ≤ x
  · have hf : ⌊x⌋ = m := by
      rw [Int.floor_eq_iff]
      constructor
      · exact hx
      · linarith
    rw [hf, if_pos h2]
  · have hf : ⌊x⌋ = m - 1 := by
      rw [Int.floor_eq_iff]
      push_cast
      constructor
      · linarith
      · linarith
    rw [hf]
    push_cast
    rw [if_neg (by linarith), if_pos (by linarith)]
    omega

theorem roundHalfEven_nonneg (x : ℚ) (h : 0 ≤ x) : 0 ≤ roundHalfEven x := by
  have hf : 0 ≤ ⌊x⌋ := Int.floor_nonneg.mpr h
  unfold roundHalfEven
  dsimp only
  split
  · exact hf
  · split
    · omega
    · split <;> omega

theorem roundPos_nonneg (q : ℚ) (h : 0 ≤ q) : 0 ≤ roundPos q := by
  unfold roundPos
  dsimp only
  have h2 : (0 : ℚ) < 2 ^ max (Int.log 2 q - 52) (-1074) := zpow_pos (by norm_num) _
  have h3 : 0 ≤ roundHalfEven (q / 2 ^ max (Int.log 2 q - 52) (-1074)) :=
    roundHalfEven_nonneg _ (div_nonneg h (le_of_lt h2))
  have h4 : (0 : ℚ) ≤ (roundHalfEven (q / 2 ^ max (Int.log 2 q - 52) (-1074)) : ℚ) := by
    exact_mod_cast h3
  exact mul_nonneg h4 (le_of_lt h2)

theorem roundQ_nonneg (q : ℚ) (h : 0 ≤ q) : 0 ≤ roundQ q := by
  unfold roundQ
  split
  · exact le_refl _
  · rw [if_neg (not_lt.mpr h)]
    exact roundPos_nonneg q h

theorem roundQ_zero : roundQ 0 = 0 := by
  unfold roundQ
  rw [if_pos rfl]

theorem round64_zero : round64 0 = GoFloat.finite 0 := by
  unfold round64
  rw [roundQ_zero, abs_zero, if_neg]
  exact not_le.mpr (by positivity)

theorem roundPos_of_near (q : ℚ) (e qe m : Int) (hq : 0 < q) (hlo : (2 : ℚ) ^ e ≤ q)
    (hhi : q < (2 : ℚ) ^ (e + 1)) (hqe : qe = max (e - 52) (-1074))
    (hm : |q / 2 ^ qe - m| < 1 / 2) :
    roundPos q = (m : ℚ) * 2 ^ qe := by
  have hlog : Int.log 2 q = e := by
    apply le_antisymm
    · have := (Int.lt_zpow_iff_log_lt (b := 2) (by norm_num) hq (x := e + 1)).mp
        (by simpa using hhi)
      omega
    · exact (Int.zpow_le_iff_le_log (b := 2) (by norm_num) hq).mp (by simpa using hlo)
  unfold roundPos
  dsimp only
  rw [hlog, ← hqe, roundHalfEven_of_near _ m hm]

theorem roundQ_of_near (q : ℚ) (e qe m : Int) (hq : 0 < q) (hlo : (2 : ℚ) ^ e ≤ q)
    (hhi : q < (2 : ℚ) ^ (e + 1)) (hqe : qe = max (e - 52) (-1074))
    (hm : |q / 2 ^ qe - m| < 1 / 2) :
    roundQ q = (m : ℚ) * 2 ^ qe := by
  unfold roundQ
  rw [if_neg (ne_of_gt hq), if_neg (not_lt.mpr (le_of_lt hq))]
  exact roundPos_of_near q e qe m hq hlo hhi hqe hm

theorem roundQ_neg_of_near (q : ℚ) (e qe m : Int) (hq : 0 < q) (hlo : (2 : ℚ) ^ e ≤ q)
    (hhi : q < (2 : ℚ) ^ (e + 1)) (hqe : qe = max (e - 52) (-1074))
    (hm : |q / 2 ^ qe - m| < 1 / 2) :
    roundQ (-q) = -((m : ℚ) * 2 ^ qe) := by
  unfold roundQ
  have h1 : ¬ (-q = 0) := by
    intro h
    linarith
  rw [if_neg h1, if_pos (by linarith), neg_neg]
  rw [roundPos_of_near q e qe m hq hlo hhi hqe hm]

theorem roundQ_one : roundQ 1 = 1 := by
  have := roundQ_of_near 1 0 (-52) (2 ^ 52) (by norm_num) (by norm_num) (by norm_num)
    (by decide) (by norm_num)
  rw [this]
  norm_num

theorem roundQ_ten : roundQ 10 = 10 := by
  have := roundQ_of_near 10 3 (-49) (10 * 2 ^ 49) (by norm_num) (by norm_num) (by norm_num)
    (by decide) (by norm_num)
  rw [this]
  norm_num

theorem roundQ_tenth : roundQ (1 / 10) = 3602879701896397 / 36028797018963968 := by
  have := roundQ_of_near (1 / 10) (-4) (-56) 7205759403792794 (by norm_num) (by norm_num)
    (by norm_num) (by decide) (by norm_num [abs_lt])
  rw [this]
  norm_num

theorem Pow10_zero : Pow10 0 = GoFloat.finite 1 := by
  unfold Pow10
  rw [if_pos (by omega)]
  have e1 : pow10postab32 ((0 : Int).toNat / 32) = 1 := by
    show roundQ ((10 : ℚ) ^ (32 * 0)) = 1
    simpa using roundQ_one
  have e2 : pow10tab ((0 : Int).toNat % 32) = 1 := by
    show roundQ ((10 : ℚ) ^ 0) = 1
    simpa using roundQ_one
  rw [e1, e2]
  unfold round64
  norm_num [roundQ_one]

theorem Pow10_neg_one : Pow10 (-1) = GoFloat.finite (3602879701896397 / 36028797018963968) := by
  unfold Pow10
  rw [if_neg (by omega), if_pos (by omega)]
  have e1 : pow10negtab32 ((-(-1 : Int)).toNat / 32) = 1 := by
    show roundQ ((10 : ℚ) ^ (-(32 * ((0 : Nat) : Int)))) = 1
    simpa using roundQ_one
  have e2 : pow10tab ((-(-1 : Int)).toNat % 32) = 10 := by
    show roundQ ((10 : ℚ) ^ 1) = 10
    simpa using roundQ_ten
  rw [e1, e2]
  unfold round64
  rw [roundQ_tenth]
  norm_num [abs_of_pos]

theorem Pow10_not_neg (n : Int) : fgt (GoFloat.finite 0) (Pow10 n) = false := by
  have key : ∀ q : ℚ, 0 ≤ q → fgt (GoFloat.finite 0) (round64 q) = false := by
    intro q hq
    unfold round64
    split
    · simp [fgt, not_lt.mpr hq]
    · simp [fgt, roundQ_nonneg q hq]
  unfold Pow10
  split
  · exact key _ (mul_nonneg (roundQ_nonneg _ (by positivity)) (roundQ_nonneg _ (by positivity)))
  · split
    · exact key _ (div_nonneg (roundQ_nonneg _ (by positivity)) (roundQ_nonneg _ (by positivity)))
    · split <;> simp [fgt]


theorem CompareFloat32_clamp (precision : Int) :
    (if precision < 0 then 0 else precision) = max precision 0 := by
  split
  · rw [max_eq_right]; omega
  · rw [max_eq_left]; omega

theorem fgt_irrefl_of_zero (t : GoFloat) (ht : fgt (GoFloat.finite 0) t = false)
    (x : GoFloat) (hx : feq x x = true) : fgt (Abs (fsub x x)) t = false := by
  cases x with
  | finite a =>
    simp only [fsub, sub_self, round64_zero, Abs, abs_zero]
    exact ht
  | inf n => cases t <;> simp [fsub, Abs, fgt]
  | nan => simp [feq] at hx

theorem compare_cases (f1 f2 t : GoFloat) (ht : fgt (GoFloat.finite 0) t = false) :
    ((feq (Max f1 f2) f1 = true ∧ fgt (Abs (fsub f1 f2)) t = true)
        ↔ (fgt (Abs (fsub f1 f2)) t = true ∧ fgt f1 f2 = true))
      ∧ ((feq (Max f1 f2) f2 = true ∧ fgt (Abs (fsub f1 f2)) t = true)
        ↔ (fgt (Abs (fsub f1 f2)) t = true ∧ fgt f2 f1 = true)) := by
  cases f1 with
  | finite a =>
    cases f2 with
    | finite b =>
      rcases lt_trichotomy a b with hab | hab | hab
      · have h1 : ¬ (b < a) := not_lt.mpr (le_of_lt hab)
        have h2 : ¬ (b = a) := ne_of_gt hab
        simp [Max, feq, fgt, h1, h2, hab]
      · subst hab
        have := fgt_irrefl_of_zero t ht (GoFloat.finite a) (by simp [feq])
        simp [this]
      · have h1 : ¬ (a < b) := not_lt.mpr (le_of_lt hab)
        have h2 : ¬ (a = b) := ne_of_gt hab
        simp [Max, feq, fgt, h1, h2, hab]
    | inf m => cases m <;> simp [Max, feq, fgt, fsub, Abs]
    | nan => simp [Max, feq, fgt, fsub, Abs]
  | inf n =>
    cases f2 with
    | finite b => cases n <;> simp [Max, feq, fgt, fsub, Abs]
    | inf m => cases n <;> cases m <;> cases t <;> simp [Max, feq, fgt, fsub, Abs]
    | nan => cases n <;> simp [Max, feq, fgt, fsub, Abs]
  | nan => cases f2 <;> simp [Max, feq, fgt, fsub, Abs]

theorem fgt_asymm (x y : GoFloat) (h : fgt x y = true) : fgt y x = false := by
  cases x with
  | finite a =>
    cases y with
    | finite b =>
      simp only [fgt, decide_eq_true_eq, decide_eq_false_iff_not] at h ⊢
      exact not_lt.mpr (le_of_lt h)
    | inf m => cases m <;> simp_all [fgt]
    | nan => simp_all [fgt]
  | inf n =>
    cases y with
    | finite b => cases n <;> simp_all [fgt]
    | inf m => cases n <;> cases m <;> simp_all [fgt]
    | nan => simp_all [fgt]
  | nan => cases y <;> simp_all [fgt]

theorem CompareFloat32_branches (f1 f2 : GoFloat) (precision : Int) :
    CompareFloat32 f1 f2 precision
      = if fgt (Abs (fsub f1 f2)) (Pow10 (-(max precision 0))) = true ∧ fgt f1 f2 = true then 1
        else if fgt (Abs (fsub f1 f2)) (Pow10 (-(max precision 0))) = true ∧ fgt f2 f1 = true
          then -1
        else 0 := by
  obtain ⟨h1, h2⟩ := compare_cases f1 f2 (Pow10 (-(max precision 0))) (Pow10_not_neg _)
  unfold CompareFloat32
  simp only [CompareFloat32_clamp]
  by_cases c1 : fgt (Abs (fsub f1 f2)) (Pow10 (-(max precision 0))) = true ∧ fgt f1 f2 = true
  · rw [if_pos (h1.mpr c1), if_pos c1]
  · rw [if_neg (fun h => c1 (h1.mp h)), if_neg c1]
    by_cases c2 : fgt (Abs (fsub f1 f2)) (Pow10 (-(max precision 0))) = true ∧ fgt f2 f1 = true
    · rw [if_pos (h2.mpr c2), if_pos c2]
    · rw [if_neg (fun h => c2 (h2.mp h)), if_neg c2]

theorem fsub_one_105 :
    fsub (GoFloat.finite 1) (GoFloat.finite (4404019 / 4194304))
      = GoFloat.finite (-(209715 / 4194304)) := by
  have e : (1 : ℚ) - 4404019 / 4194304 = -(209715 / 4194304) := by norm_num
  have r := roundQ_neg_of_near (209715 / 4194304) (-5) (-57) (209715 * 2 ^ 35) (by norm_num)
    (by norm_num) (by norm_num) (by decide) (by norm_num)
  have r2 : roundQ (-(209715 / 4194304)) = -(209715 / 4194304) := by
    rw [r]
    norm_num
  simp only [fsub, e]
  unfold round64
  rw [r2]
  norm_num [abs_of_pos]

theorem fsub_one_12 :
    fsub (GoFloat.finite 1) (GoFloat.finite (5033165 / 4194304))
      = GoFloat.finite (-(838861 / 4194304)) := by
  have e : (1 : ℚ) - 5033165 / 4194304 = -(838861 / 4194304) := by norm_num
  have r := roundQ_neg_of_near (838861 / 4194304) (-3) (-55) (838861 * 2 ^ 33) (by norm_num)
    (by norm_num) (by norm_num) (by decide) (by norm_num)
  have r2 : roundQ (-(838861 / 4194304)) = -(838861 / 4194304) := by
    rw [r]
    norm_num
  simp only [fsub, e]
  unfold round64
  rw [r2]
  norm_num [abs_of_pos]

theorem fsub_one_tiny :
    fsub (GoFloat.finite 1) (GoFloat.finite (-(1 / 1152921504606846976)))
      = GoFloat.finite 1 := by
  have e : (1 : ℚ) - -(1 / 1152921504606846976)
      = 1152921504606846977 / 1152921504606846976 := by norm_num
  have r := roundQ_of_near (1152921504606846977 / 1152921504606846976) 0 (-52) (2 ^ 52)
    (by norm_num) (by norm_num) (by norm_num) (by decide) (by norm_num [abs_lt])
  have r2 : roundQ (1152921504606846977 / 1152921504606846976) = 1 := by
    rw [r]
    norm_num
  simp only [fsub, e]
  unfold round64
  rw [r2]
  norm_num

theorem fgt_or_of_diff (f1 f2 t : GoFloat) (ht : fgt (GoFloat.finite 0) t = false)
    (hd : fgt (Abs (fsub f1 f2)) t = true) : fgt f1 f2 = true ∨ fgt f2 f1 = true := by
  cases f1 with
  | finite a =>
    cases f2 with
    | finite b =>
      rcases lt_trichotomy a b with hab | hab | hab
      · right
        simp [fgt, hab]
      · subst hab
        have := fgt_irrefl_of_zero t ht (GoFloat.finite a) (by simp [feq])
        rw [this] at hd
        exact absurd hd (by decide)
      · left
        simp [fgt, hab]
    | inf m => cases m <;> simp [fgt]
    | nan => simp [fsub, Abs, fgt] at hd
  | inf n =>
    cases f2 with
    | finite b => cases n <;> simp [fgt]
    | inf m => cases n <;> cases m <;> simp [fsub, Abs, fgt] at hd ⊢
    | nan => simp [fsub, Abs, fgt] at hd
  | nan => cases f2 <;> simp [fsub, Abs, fgt] at hd

/-- C6, as amended: with `p = max(precision, 0)`, the difference `d` computed in
`float64` (exact difference rounded to nearest, ties to even, then `math.Abs`) and the
tolerance `t = math.Pow10(-p)` computed in `float64`, `CompareFloat32` returns 1
exactly when `d > t` and `f1 > f2`, -1 exactly when `d > t` and `f1 < f2`, and 0
exactly when `d > t` does not hold (in particular when an argument is NaN); a negative
precision behaves as precision 0; on the `float32` values of (1.0, 1.05) at precision 1
the result is 0 and on those of (1.0, 1.2) it is -1. -/
theorem C6_CompareFloat32_float64 (f1 f2 : GoFloat) (precision : Int) :
    (CompareFloat32 f1 f2 precision = 0
        ↔ fgt (Abs (fsub f1 f2)) (Pow10 (-(max precision 0))) = false)
      ∧ (CompareFloat32 f1 f2 precision = 1
          ↔ fgt (Abs (fsub f1 f2)) (Pow10 (-(max precision 0))) = true ∧ fgt f1 f2 = true)
      ∧ (CompareFloat32 f1 f2 precision = -1
          ↔ fgt (Abs (fsub f1 f2)) (Pow10 (-(max precision 0))) = true ∧ fgt f2 f1 = true)
      ∧ (precision < 0 → CompareFloat32 f1 f2 precision = CompareFloat32 f1 f2 0)
      ∧ CompareFloat32 (GoFloat.finite 1) (GoFloat.finite (4404019 / 4194304)) 1 = 0
      ∧ CompareFloat32 (GoFloat.finite 1) (GoFloat.finite (5033165 / 4194304)) 1 = -1 := by
  have hb := CompareFloat32_branches f1 f2 precision
  have hor := fgt_or_of_diff f1 f2 (Pow10 (-(max precision 0))) (Pow10_not_neg _)
  refine ⟨?_, ?_, ?_, ?_, ?_, ?_⟩
  · rw [hb]
    cases hd : fgt (Abs (fsub f1 f2)) (Pow10 (-(max precision 0)))
    · simp
    · rcases hor hd with h | h
      · simp [h]
      · have h' := fgt_asymm f2 f1 h
        simp [h, h']
  · rw [hb]
    constructor
    · intro h
      by_contra hc
      rw [if_neg hc] at h
      split at h <;> exact absurd h (by decide)
    · intro h
      rw [if_pos h]
  · rw [hb]
    constructor
    · intro h
      by_cases c1 : fgt (Abs (fsub f1 f2)) (Pow10 (-(max precision 0))) = true
          ∧ fgt f1 f2 = true
      · rw [if_pos c1] at h
        exact absurd h (by decide)
      · rw [if_neg c1] at h
        by_contra hc
        rw [if_neg hc] at h
        exact absurd h (by decide)
    · intro h
      have h' := fgt_asymm f2 f1 h.2
      rw [if_neg (fun c => by rw [h'] at c; exact absurd c.2 (by decide)), if_pos h]
  · intro hneg
    rw [hb, CompareFloat32_branches f1 f2 0]
    have e : max precision 0 = max (0 : Int) 0 := by
      rw [max_eq_right (le_of_lt hneg), max_self]
    rw [e]
  · rw [CompareFloat32_branches]
    have e : -(max (1 : Int) 0) = -1 := by decide
    rw [e, Pow10_neg_one, fsub_one_105]
    norm_num [Abs, fgt, abs_of_pos]
  · rw [CompareFloat32_branches]
    have e : -(max (1 : Int) 0) = -1 := by decide
    rw [e, Pow10_neg_one, fsub_one_12]
    norm_num [Abs, fgt, abs_of_pos]

/-- C6, counterexample to the exact-arithmetic reading: 1 and `-2^-60` are `float32`
values with `|f1 - f2| = 1 + 2^-60 > 10^0` and `f1 > f2`, yet at precision 0
`CompareFloat32` returns 0, not 1: the `float64` difference rounds to 1, which is not
above the tolerance 1. -/
theorem C6_CompareFloat32_exact_fails :
    isFloat32 1 ∧ isFloat32 (-(1 / 1152921504606846976))
      ∧ (10 : ℚ) ^ (-(max (0 : Int) 0)) < |(1 : ℚ) - -(1 / 1152921504606846976)|
      ∧ (-(1 / 1152921504606846976) : ℚ) < 1
      ∧ CompareFloat32 (GoFloat.finite 1) (GoFloat.finite (-(1 / 1152921504606846976))) 0 = 0
      ∧ ¬ (CompareFloat32 (GoFloat.finite 1) (GoFloat.finite (-(1 / 1152921504606846976))) 0 = 0
          ↔ |(1 : ℚ) - -(1 / 1152921504606846976)| ≤ (10 : ℚ) ^ (-(max (0 : Int) 0))) := by
  have hval : CompareFloat32 (GoFloat.finite 1)
      (GoFloat.finite (-(1 / 1152921504606846976))) 0 = 0 := by
    rw [CompareFloat32_branches]
    have e : -(max (0 : Int) 0) = 0 := by decide
    rw [e, Pow10_zero, fsub_one_tiny]
    norm_num [Abs, fgt]
  have hgt : (10 : ℚ) ^ (-(max (0 : Int) 0)) < |(1 : ℚ) - -(1 / 1152921504606846976)| := by
    have e : -(max (0 : Int) 0) = 0 := by decide
    rw [e, lt_abs]
    left
    norm_num
  refine ⟨⟨1, 0, by norm_num, by norm_num, by norm_num, by norm_num⟩,
    ⟨-1, -60, by norm_num, by norm_num, by norm_num, by norm_num⟩, hgt, by norm_num, hval, ?_⟩
  intro h
  exact absurd (h.mp hval) (not_le.mpr hgt)

/-! ## Theorems: string to integer conversion -/

theorem decimalValue_cons (c : Nat) (rest : List Nat) (n : Nat) :
    decimalValue (c :: rest) n = decimalValue rest (n * 10 + (c - 48)) := rfl

theorem decimalValue_ge (ds : List Nat) (n : Nat) : n ≤ decimalValue ds n := by
  induction ds generalizing n with
  | nil => exact Nat.le_refl _
  | cons c rest ih =>
    rw [decimalValue_cons]
    have := ih (n * 10 + (c - 48))
    omega

theorem decimalValue_lt_pow (ds : List Nat) (n : Nat)
    (hd : ∀ c ∈ ds, 48 ≤ c ∧ c ≤ 57) :
    decimalValue ds n + 1 ≤ (n + 1) * 10 ^ ds.length := by
  induction ds generalizing n with
  | nil => simp [decimalValue]
  | cons c rest ih =>
    rw [decimalValue_cons]
    have hc := hd c (by simp)
    have h1 := ih (n * 10 + (c - 48)) (fun x hx => hd x (by simp [hx]))
    have h2 : (n * 10 + (c - 48) + 1) * 10 ^ rest.length ≤ (n * 10 + 10) * 10 ^ rest.length :=
      Nat.mul_le_mul_right _ (by omega)
    have h3 : (n * 10 + 10) * 10 ^ rest.length = (n + 1) * 10 ^ (c :: rest).length := by
      simp only [List.length_cons, pow_succ]
      ring
    omega

theorem parseUintLoop_digits (ds : List Nat) (n : Nat)
    (hd : ∀ c ∈ ds, 48 ≤ c ∧ c ≤ 57) (hn : n ≤ maxUint64) :
    parseUintLoop ds n
      = if decimalValue ds n ≤ maxUint64 then (decimalValue ds n, none)
        else (maxUint64, some NumError.outOfRange) := by
  induction ds generalizing n with
  | nil => simp [parseUintLoop, decimalValue, hn]
  | cons c rest ih =>
    have hc := hd c (by simp)
    have hrest : ∀ x ∈ rest, 48 ≤ x ∧ x ≤ 57 := fun x hx => hd x (by simp [hx])
    have hge := decimalValue_ge rest (n * 10 + (c - 48))
    rw [decimalValue_cons]
    unfold parseUintLoop
    simp only [hc, and_self, if_true]
    have hd10 : ¬ (c - 48 ≥ 10) := by omega
    rw [if_neg hd10]
    unfold maxUint64 at hn hge ⊢
    norm_num only at hn hge ⊢
    by_cases hcut : 1844674407370955162 ≤ n
    · rw [if_pos hcut, if_neg (by omega)]
    · rw [if_neg hcut]
      have e10 : n * 10 % 18446744073709551616 = n * 10 := Nat.mod_eq_of_lt (by omega)
      rw [e10]
      by_cases hov : n * 10 + (c - 48) < 18446744073709551616
      · have e1 : (n * 10 + (c - 48)) % 18446744073709551616 = n * 10 + (c - 48) :=
          Nat.mod_eq_of_lt hov
        rw [e1, if_neg (by omega)]
        have := ih (n * 10 + (c - 48)) hrest (by unfold maxUint64; omega)
        unfold maxUint64 at this
        norm_num only at this
        exact this
      · rw [if_pos (by omega), if_neg (by omega)]

theorem parseUintLoop_shape (ds : List Nat) (n : Nat) :
    (parseUintLoop ds n).2 = none ∨ (parseUintLoop ds n).2 = some NumError.invalid
      ∨ parseUintLoop ds n = (maxUint64, some NumError.outOfRange) := by
  induction ds generalizing n with
  | nil => left; rfl
  | cons c rest ih =>
    unfold parseUintLoop
    dsimp only
    split
    · right; left; rfl
    · split
      · right; left; rfl
      · split
        · right; right; rfl
        · split
          · right; right; rfl
          · exact ih _

theorem parseUintLoop_nondigit (ds : List Nat) (n : Nat)
    (hd : ∃ c ∈ ds, ¬ (48 ≤ c ∧ c ≤ 57)) :
    (parseUintLoop ds n).2 ≠ none := by
  induction ds generalizing n with
  | nil => simp at hd
  | cons c rest ih =>
    unfold parseUintLoop
    dsimp only
    by_cases hc : 48 ≤ c ∧ c ≤ 57
    · have hrest : ∃ x ∈ rest, ¬ (48 ≤ x ∧ x ≤ 57) := by
        obtain ⟨x, hx, hnx⟩ := hd
        rcases List.mem_cons.mp hx with rfl | hx
        · exact absurd hc hnx
        · exact ⟨x, hx, hnx⟩
      rw [if_pos hc]
      dsimp only
      split
      · simp
      · split
        · simp
        · split
          · simp
          · exact ih _ hrest
    · rw [if_neg hc]
      by_cases hl : 97 ≤ lower c ∧ lower c ≤ 122
      · rw [if_pos hl]
        dsimp only
        rw [if_pos (by omega)]
        simp
      · rw [if_neg hl]
        simp

theorem all_digits_iff (ds : List Nat) :
    ds.all isDecimalDigit = true ↔ ∀ c ∈ ds, 48 ≤ c ∧ c ≤ 57 := by
  simp [List.all_eq_true, isDecimalDigit]

theorem parseIntRange_spec (neg : Bool) (s1 : GoString) :
    (if (parseIntRange neg s1).2 ≠ none then 0 else wrap64 (parseIntRange neg s1).1)
      = inRangeOrZero (signedValue neg s1) := by
  by_cases hnil : s1 = []
  · subst hnil
    cases neg <;> decide
  by_cases hall : s1.all isDecimalDigit = true
  · have hd := (all_digits_iff s1).mp hall
    have hloop := parseUintLoop_digits s1 0 hd (by unfold maxUint64; omega)
    have hpu : ParseUint s1 = parseUintLoop s1 0 := by
      unfold ParseUint
      rw [if_neg hnil]
    unfold parseIntRange signedValue inRangeOrZero
    rw [hpu, hloop]
    simp only [hnil, hall, ne_eq, not_false_eq_true, and_self, if_true]
    generalize decimalValue s1 0 = dv
    unfold maxUint64
    norm_num only
    by_cases hmax : dv ≤ 18446744073709551615
    · rw [if_pos hmax]
      simp only [ne_eq, not_true_eq_false, false_and, if_false]
      cases neg
      · simp only [Bool.false_eq_true, if_false, true_and, false_and]
        by_cases hc : 9223372036854775808 ≤ dv
        · rw [if_pos hc]
          simp only [ne_eq, reduceCtorEq, not_false_eq_true, if_true]
          rw [if_neg (by omega)]
        · rw [if_neg hc]
          simp only [ne_eq, not_true_eq_false, if_false]
          rw [if_pos (by omega)]
          rw [wrap64_of_range (dv : Int) (by norm_num only; omega) (by norm_num only; omega)]
          exact wrap64_of_range (dv : Int) (by norm_num only; omega) (by norm_num only; omega)
      · simp only [if_true, true_and, Bool.true_eq_false, false_and, if_false]
        by_cases hc : 9223372036854775808 < dv
        · rw [if_pos hc]
          simp only [ne_eq, reduceCtorEq, not_false_eq_true, if_true]
          rw [if_neg (by omega)]
        · rw [if_neg hc]
          simp only [ne_eq, not_true_eq_false, if_false]
          rw [if_pos (by omega)]
          unfold wrap64
          norm_num only
          omega
    · rw [if_neg hmax]
      simp only [ne_eq, reduceCtorEq, not_false_eq_true, not_true_eq_false, and_false,
        if_false]
      cases neg
      · simp only [Bool.false_eq_true, if_false, true_and, false_and]
        rw [if_pos (show (18446744073709551615 : Nat) ≥ 9223372036854775808 by omega)]
        simp only [ne_eq, reduceCtorEq, not_false_eq_true, if_true]
        rw [if_neg (by omega)]
      · simp only [if_true, true_and, Bool.true_eq_false, false_and, if_false]
        rw [if_pos (show (18446744073709551615 : Nat) > 9223372036854775808 by omega)]
        simp only [ne_eq, reduceCtorEq, not_false_eq_true, if_true]
        rw [if_neg (by omega)]
  · have hex : ∃ c ∈ s1, ¬ (48 ≤ c ∧ c ≤ 57) := by
      by_contra hcon
      push_neg at hcon
      exact hall ((all_digits_iff s1).mpr hcon)
    have hne := parseUintLoop_nondigit s1 0 hex
    have hpu : ParseUint s1 = parseUintLoop s1 0 := by
      unfold ParseUint
      rw [if_neg hnil]
    have hspec : inRangeOrZero (signedValue neg s1) = 0 := by
      unfold signedValue
      rw [if_neg (fun h => hall h.2)]
      rfl
    rw [hspec]
    unfold parseIntRange
    rw [hpu]
    rcases parseUintLoop_shape s1 0 with h | h | h
    · exact absurd h hne
    · simp [h]
    · rw [h]
      cases neg <;> simp [maxUint64]

theorem atoiLoop_digits (ds : List Nat) (n : Nat)
    (hd : ∀ c ∈ ds, 48 ≤ c ∧ c ≤ 57) (hv : decimalValue ds n < 2 ^ 63) :
    atoiLoop ds (n : Int) = some (decimalValue ds n : Int) := by
  induction ds generalizing n with
  | nil => rfl
  | cons c rest ih =>
    have hc := hd c (by simp)
    have hrest : ∀ x ∈ rest, 48 ≤ x ∧ x ≤ 57 := fun x hx => hd x (by simp [hx])
    rw [decimalValue_cons] at hv ⊢
    have hge := decimalValue_ge rest (n * 10 + (c - 48))
    unfold atoiLoop
    have e1 : (c + 256 - 48) % 256 = c - 48 := by omega
    simp only [e1]
    rw [if_neg (by omega)]
    have e2 : wrap64 ((n : Int) * 10 + ((c - 48 : Nat) : Int))
        = ((n * 10 + (c - 48) : Nat) : Int) := by
      rw [wrap64_of_range]
      · push_cast; rfl
      · norm_num only; omega
      · norm_num only at hv ⊢; omega
    rw [e2]
    exact ih (n * 10 + (c - 48)) hrest hv

theorem atoiLoop_nondigit (ds : List Nat) (n : Int) (hb : validBytes ds)
    (hd : ∃ c ∈ ds, ¬ (48 ≤ c ∧ c ≤ 57)) :
    atoiLoop ds n = none := by
  induction ds generalizing n with
  | nil => simp at hd
  | cons c rest ih =>
    have hc256 : c < 256 := hb c (by simp)
    have hbrest : validBytes rest := fun x hx => hb x (by simp [hx])
    unfold atoiLoop
    dsimp only
    by_cases hc : 48 ≤ c ∧ c ≤ 57
    · have hrest : ∃ x ∈ rest, ¬ (48 ≤ x ∧ x ≤ 57) := by
        obtain ⟨x, hx, hnx⟩ := hd
        rcases List.mem_cons.mp hx with rfl | hx
        · exact absurd hc hnx
        · exact ⟨x, hx, hnx⟩
      rw [if_neg (by omega)]
      exact ih _ hbrest hrest
    · rw [if_pos (by omega)]

theorem atoiLoop_spec (neg : Bool) (ds : List Nat) (hb : validBytes ds)
    (hne : ds ≠ []) (hlen : ds.length < 19) :
    (match atoiLoop ds 0 with
      | none => (0 : Int)
      | some n => wrap64 (if neg = true then wrap64 (-n) else n))
      = inRangeOrZero (signedValue neg ds) := by
  by_cases hall : ds.all isDecimalDigit = true
  · have hd := (all_digits_iff ds).mp hall
    have hpow := decimalValue_lt_pow ds 0 hd
    have hle : 10 ^ ds.length ≤ 10 ^ 18 := Nat.pow_le_pow_right (by omega) (by omega)
    have hv : decimalValue ds 0 < 10 ^ 18 := by omega
    have hloop := atoiLoop_digits ds 0 hd (by norm_num only at hv ⊢; omega)
    simp only [Nat.cast_zero] at hloop
    rw [hloop]
    unfold signedValue inRangeOrZero
    simp only [hne, hall, ne_eq, not_false_eq_true, and_self, if_true]
    generalize decimalValue ds 0 = dv at hv
    norm_num only at hv ⊢
    cases neg
    · simp only [Bool.false_eq_true, if_false]
      rw [if_pos (by omega)]
      exact wrap64_of_range (dv : Int) (by norm_num only; omega) (by norm_num only; omega)
    · simp only [if_true]
      rw [if_pos (by omega)]
      rw [wrap64_of_range (-(dv : Int)) (by norm_num only; omega) (by norm_num only; omega)]
      exact wrap64_of_range (-(dv : Int)) (by norm_num only; omega) (by norm_num only; omega)
  · have hex : ∃ c ∈ ds, ¬ (48 ≤ c ∧ c ≤ 57) := by
      by_contra hcon
      push_neg at hcon
      exact hall ((all_digits_iff ds).mpr hcon)
    rw [atoiLoop_nondigit ds 0 hb hex]
    unfold signedValue
    rw [if_neg (fun h => hall h.2)]
    rfl

theorem StrToInt_eq_spec (s : GoString) (hb : validBytes s) : StrToInt s = StrToIntSpec s := by
  cases s with
  | nil => decide
  | cons s0 rest =>
    have hbrest : validBytes rest := fun x hx => hb x (by simp [hx])
    unfold StrToInt StrToIntSpec literalValue
    by_cases hlen : (s0 :: rest).length < 19
    · unfold Atoi
      simp only [hlen, if_true]
      by_cases h43 : s0 = 43
      · subst h43
        simp only [or_true, if_true, true_and]
        by_cases hr : rest = []
        · subst hr; decide
        · have hl1 : ¬ rest.length < 1 := by
            have := List.length_pos.mpr hr
            omega
          have hl19 : rest.length < 19 := by
            simp only [List.length_cons] at hlen
            omega
          have := atoiLoop_spec false rest hbrest hr hl19
          rw [if_neg hl1, ← this]
          generalize atoiLoop rest 0 = r
          cases r <;> simp
      · by_cases h45 : s0 = 45
        · subst h45
          simp only [true_or, if_true, true_and]
          by_cases hr : rest = []
          · subst hr; decide
          · have hl1 : ¬ rest.length < 1 := by
              have := List.length_pos.mpr hr
              omega
            have hl19 : rest.length < 19 := by
              simp only [List.length_cons] at hlen
              omega
            have := atoiLoop_spec true rest hbrest hr hl19
            have e : ¬ ((45 : Nat) = 43) := by decide
            rw [if_neg hl1, if_neg e, ← this]
            generalize atoiLoop rest 0 = r
            cases r <;> simp
        · have := atoiLoop_spec false (s0 :: rest) hb (by simp) hlen
          simp only [h43, h45, or_self, false_and, if_false]
          rw [← this]
          generalize atoiLoop (s0 :: rest) 0 = r
          cases r <;> simp
    · have hA : Atoi (s0 :: rest) = ParseInt (s0 :: rest) := by
        unfold Atoi
        simp only [hlen, if_false]
      rw [hA]
      unfold ParseInt
      by_cases h43 : s0 = 43
      · simp only [h43, if_true]
        exact parseIntRange_spec false rest
      · by_cases h45 : s0 = 45
        · have e : ¬ ((45 : Nat) = 43) := by decide
          simp only [h45, e, if_true, if_false]
          exact parseIntRange_spec true rest
        · simp only [h43, h45, if_false]
          exact parseIntRange_spec false (s0 :: rest)

/-! ## Theorems: time formatting -/

theorem Unix_of_millis (ms : Int) :
    Unix (Int.tdiv ms 1000) (Int.tmod ms 1000 * 1000000)
      = { sec := ms / 1000, nsec := ms % 1000 * 1000000 } := by
  have hmod : Int.tmod ms 1000 = ms - 1000 * Int.tdiv ms 1000 := Int.tmod_def ms 1000
  by_cases h : 0 ≤ ms
  · have hdiv : Int.tdiv ms 1000 = ms / 1000 := Int.tdiv_eq_ediv h (by omega)
    rw [hmod, hdiv]
    unfold Unix
    rw [if_neg (by omega)]
    congr 1
    omega
  · have hneg : Int.tdiv ms 1000 = -((-ms) / 1000) := by
      have h1 : Int.tdiv (-(-ms)) 1000 = -(Int.tdiv (-ms) 1000) := Int.neg_tdiv (-ms) 1000
      rw [Int.neg_neg] at h1
      rw [h1, Int.tdiv_eq_ediv (by omega) (by omega)]
    rw [hmod, hneg]
    unfold Unix
    by_cases hz : ms % 1000 = 0
    · rw [if_neg (by omega)]
      congr 1 <;> omega
    · have hn : (ms - 1000 * -(-ms / 1000)) * 1000000 < 0 := by omega
      have hlow : -1000000000 < (ms - 1000 * -(-ms / 1000)) * 1000000 := by omega
      rw [if_pos (Or.inl hn)]
      have hq : Int.tdiv ((ms - 1000 * -(-ms / 1000)) * 1000000) 1000000000 = 0 := by
        have h2 := Int.neg_tdiv (-((ms - 1000 * -(-ms / 1000)) * 1000000)) 1000000000
        rw [Int.neg_neg] at h2
        rw [h2, Int.tdiv_eq_ediv (by omega) (by omega)]
        omega
      simp only [hq]
      rw [if_pos (by omega)]
      congr 1 <;> omega

theorem utoaRev_length_pos (fuel u : Nat) : 1 ≤ (utoaRev fuel u).length := by
  cases fuel with
  | zero => simp [utoaRev]
  | succ f =>
    unfold utoaRev
    split <;> simp

theorem utoaRev_length_le (fuel u k : Nat) (hk : 1 ≤ k) (hu : u < 10 ^ k) :
    (utoaRev fuel u).length ≤ k := by
  induction fuel generalizing u k with
  | zero => simpa [utoaRev] using hk
  | succ f ih =>
    unfold utoaRev
    split
    · rename_i h10
      have hk2 : 2 ≤ k := by
        by_contra hc
        have : k = 1 := by omega
        subst this
        omega
      have hdiv : u / 10 < 10 ^ (k - 1) := by
        have e : 10 ^ k = 10 ^ (k - 1) * 10 := by
          rw [← pow_succ]
          congr 1
          omega
        rw [e] at hu
        exact Nat.div_lt_of_lt_mul (by rw [Nat.mul_comm]; exact hu)
      have := ih (u / 10) (k - 1) (by omega) hdiv
      simp only [List.length_cons]
      omega
    · simpa using hk

theorem appendInt_length (x : Int) (w : Nat) (hw : 1 ≤ w) (h0 : 0 ≤ x) (hx : x < 10 ^ w) :
    (appendInt x w).length = w := by
  unfold appendInt
  have hu : x.natAbs < 10 ^ w := by
    have : ((x.natAbs : Nat) : Int) < ((10 ^ w : Nat) : Int) := by
      rw [Int.natAbs_of_nonneg h0]
      push_cast
      exact hx
    exact_mod_cast this
  have hle := utoaRev_length_le 20 x.natAbs w hw hu
  rw [if_neg (by omega)]
  simp only [List.nil_append, List.length_append, List.length_replicate, List.length_reverse]
  omega

theorem absYearDay_yday_le (abs : Nat) : (absYearDay abs).2 ≤ 365 := by
  unfold absYearDay
  dsimp only
  omega

theorem absMonthDay_bounds (year : Int) (yday : Nat) (h : yday ≤ 365) :
    (0 ≤ (absMonthDay year yday).1 ∧ (absMonthDay year yday).1 < 100)
      ∧ (0 ≤ (absMonthDay year yday).2 ∧ (absMonthDay year yday).2 < 100) := by
  unfold absMonthDay
  split
  · simp
  · dsimp only
    generalize hday : (if isLeap year = true ∧ yday > 31 + 29 - 1 then yday - 1 else yday) = day
    have hd : day ≤ 365 := by
      rw [← hday]
      split <;> omega
    have hm : day / 31 < 12 := by omega
    generalize hmq : day / 31 = m at hm
    have hlo : 31 * m ≤ day := by omega
    have hhi : day < 31 * m + 31 := by omega
    interval_cases m <;> simp only [daysBefore, List.getD_cons_zero, List.getD_cons_succ] <;>
      split <;> constructor <;> constructor <;> simp only [] <;> omega

theorem absClock_bounds (abs : Nat) :
    (absClock abs).1 < 100 ∧ (absClock abs).2.1 < 100 ∧ (absClock abs).2.2 < 100 := by
  unfold absClock
  dsimp only
  omega

theorem FormatCST_append (t : Time) (a b : List Chunk) :
    FormatCST t (a ++ b) = FormatCST t a ++ FormatCST t b := by
  unfold FormatCST
  induction a with
  | nil => simp
  | cons c rest ih => simp [List.foldr_cons, ih, List.append_assoc]

theorem GetTimeString_length (t : Time) (h0 : 0 ≤ Year t) (h1 : Year t ≤ 9999) :
    (GetTimeString t).length = 19 := by
  have hyd := absYearDay_yday_le (absSeconds t)
  have hmd := absMonthDay_bounds (absYearDay (absSeconds t)).1 (absYearDay (absSeconds t)).2 hyd
  have hck := absClock_bounds (absSeconds t)
  have ly : (appendInt (Year t) 4).length = 4 :=
    appendInt_length _ 4 (by omega) h0 (by norm_num only; omega)
  have lm : (appendInt (Month t) 2).length = 2 :=
    appendInt_length _ 2 (by omega) hmd.1.1 (by norm_num only; exact hmd.1.2)
  have ld : (appendInt (Day t) 2).length = 2 :=
    appendInt_length _ 2 (by omega) hmd.2.1 (by norm_num only; exact hmd.2.2)
  have lh : (appendInt ((absClock (absSeconds t)).1 : Nat) 2).length = 2 :=
    appendInt_length _ 2 (by omega) (by omega) (by norm_num only; omega)
  have lmi : (appendInt ((absClock (absSeconds t)).2.1 : Nat) 2).length = 2 :=
    appendInt_length _ 2 (by omega) (by omega) (by norm_num only; omega)
  have ls : (appendInt ((absClock (absSeconds t)).2.2 : Nat) 2).length = 2 :=
    appendInt_length _ 2 (by omega) (by omega) (by norm_num only; omega)
  unfold GetTimeString FormatCST layoutSeconds
  simp only [List.foldr_cons, List.foldr_nil, appendChunk, List.length_append, ly, lm, ld,
    lh, lmi, ls, ascii, List.length_map, List.append_nil]
  rfl

theorem fixedDigits_length (w u : Nat) : (fixedDigits w u).length = w := by
  induction w generalizing u with
  | zero => rfl
  | succ w ih => simp [fixedDigits, ih]

theorem fixedDigits_mul_ten (w u : Nat) :
    fixedDigits (w + 1) (u * 10) = fixedDigits w u ++ [48] := by
  have e1 : u * 10 / 10 = u := by omega
  have e2 : u * 10 % 10 = 0 := by omega
  show fixedDigits w (u * 10 / 10) ++ [48 + u * 10 % 10] = fixedDigits w u ++ [48]
  rw [e1, e2]

theorem fixedDigits_millis (m : Nat) :
    fixedDigits 9 (m * 1000000) = fixedDigits 3 m ++ List.replicate 6 48 := by
  have e : m * 1000000 = m * 10 * 10 * 10 * 10 * 10 * 10 := by omega
  rw [e]
  simp only [fixedDigits_mul_ten, List.append_assoc]
  rfl

theorem fixedDigits_three (m : Nat) (h : m < 1000) :
    fixedDigits 3 m = [48 + m / 100, 48 + m / 10 % 10, 48 + m % 10] := by
  simp only [fixedDigits, List.nil_append, List.cons_append]
  have e1 : m / 10 / 10 % 10 = m / 100 := by omega
  rw [e1]

theorem trimZeros_le (buf : GoString) (n : Nat) : trimZeros buf n ≤ n := by
  induction n with
  | zero => simp [trimZeros]
  | succ n ih =>
    unfold trimZeros
    split <;> omega

theorem trimZeros_append (a b : GoString) (n : Nat) (h : n ≤ a.length) :
    trimZeros (a ++ b) n = trimZeros a n := by
  induction n with
  | zero => rfl
  | succ n ih =>
    unfold trimZeros
    have e : (a ++ b).getD n 0 = a.getD n 0 := by
      simp only [List.getD_eq_getElem?_getD]
      rw [List.getElem?_append_left (by omega)]
    rw [e, ih (by omega)]

theorem trimZeros_pad (buf : GoString) (n : Nat) (h : n ≤ buf.length) :
    buf.take (trimZeros buf n) ++ List.replicate (n - trimZeros buf n) 48 = buf.take n := by
  induction n with
  | zero => simp [trimZeros]
  | succ n ih =>
    have hle := trimZeros_le buf n
    have hlt : n < buf.length := by omega
    unfold trimZeros
    split
    · rename_i h48
      have e : n + 1 - trimZeros buf n = (n - trimZeros buf n) + 1 := by omega
      rw [e, List.replicate_succ', ← List.append_assoc, ih (by omega)]
      rw [List.take_succ]
      congr 1
      have hget : buf.getD n 0 = buf[n] := by
        simp [List.getD_eq_getElem?_getD, List.getElem?_eq_getElem hlt]
      rw [hget] at h48
      simp [List.getElem?_eq_getElem hlt, h48]
    · simp

theorem Repeat_zero (k : Nat) :
    Repeat (ascii "0") (k : Int) = some (List.replicate k 48) := by
  unfold Repeat
  rw [if_neg (by omega)]
  simp only [Int.toNat_ofNat]
  congr 1
  induction k with
  | zero => rfl
  | succ k ih =>
    rw [Nat.repeat, ih]
    rfl

theorem GetTimeMsString_eq (ms : Int)
    (h0 : 0 ≤ Year { sec := ms / 1000, nsec := ms % 1000 * 1000000 })
    (h1 : Year { sec := ms / 1000, nsec := ms % 1000 * 1000000 } ≤ 9999) :
    GetTimeMsString ms
      = some (GetTimeString { sec := ms / 1000, nsec := ms % 1000 * 1000000 }
          ++ ascii "." ++ fixedDigits 3 (ms % 1000).toNat) := by
  have hlen := GetTimeString_length _ h0 h1
  unfold GetTimeMsString
  rw [Unix_of_millis]
  unfold GetTimeFromatString layoutMillis
  rw [FormatCST_append]
  have hS : FormatCST { sec := ms / 1000, nsec := ms % 1000 * 1000000 } layoutSeconds
      = GetTimeString { sec := ms / 1000, nsec := ms % 1000 * 1000000 } := rfl
  rw [hS]
  generalize GetTimeString { sec := ms / 1000, nsec := ms % 1000 * 1000000 } = S at hlen ⊢
  have hns : (ms % 1000 * 1000000).toNat = (ms % 1000).toNat * 1000000 := by omega
  have hF : FormatCST { sec := ms / 1000, nsec := ms % 1000 * 1000000 } [Chunk.stdFracSecond9 3]
      = formatNano ((ms % 1000).toNat * 1000000) 3 true := by
    simp only [FormatCST, List.foldr_cons, List.foldr_nil, appendChunk, List.append_nil, hns]
  rw [hF]
  generalize (ms % 1000).toNat = m
  have hD := fixedDigits_length 3 m
  have hpad := trimZeros_pad (fixedDigits 3 m) 3 (by omega)
  have hle := trimZeros_le (fixedDigits 3 m) 3
  have htake3 : (fixedDigits 3 m).take 3 = fixedDigits 3 m := List.take_of_length_le (by omega)
  rw [htake3] at hpad
  have hfn : formatNano (m * 1000000) 3 true
      = if trimZeros (fixedDigits 3 m) 3 = 0 then []
        else 46 :: (fixedDigits 3 m).take (trimZeros (fixedDigits 3 m) 3) := by
    unfold formatNano
    have e9 : ¬ (3 > 9) := by omega
    simp only [fixedDigits_millis, if_true, true_and, e9, if_false]
    rw [trimZeros_append _ _ 3 (by omega)]
    rw [List.take_append_of_le_length (by omega)]
  rw [hfn]
  generalize trimZeros (fixedDigits 3 m) 3 = k at hpad hle
  generalize fixedDigits 3 m = D at hD hpad
  have e1 : ascii "." = [46] := by decide
  have e2 : (ascii "2006-01-02 15:04:05.999").length = 23 := by decide
  dsimp only
  rw [e1, e2]
  by_cases hk : k = 0
  · subst hk
    simp only [List.take_zero, List.nil_append, Nat.sub_zero] at hpad
    simp only [if_true, List.append_nil]
    rw [if_pos hlen.symm]
    have e3 : ((23 : Nat) : Int) - (((S ++ [46]).length : Nat) : Int) = ((3 : Nat) : Int) := by
      simp only [List.length_append, hlen, List.length_singleton]
      rfl
    rw [e3, Repeat_zero, hpad]
  · rw [if_neg hk]
    have hlk : ((D.take k).length) = k := by
      rw [List.length_take]
      omega
    have hl2 : (S ++ 46 :: D.take k).length = 20 + k := by
      simp only [List.length_append, List.length_cons, hlen, hlk]
      omega
    rw [if_neg (by rw [hl2]; omega)]
    have e3 : ((23 : Nat) : Int) - (((S ++ 46 :: D.take k).length : Nat) : Int)
        = ((3 - k : Nat) : Int) := by
      rw [hl2]
      omega
    rw [e3, Repeat_zero]
    simp only [List.append_assoc, List.cons_append, List.singleton_append, Option.some.injEq]
    rw [hpad]
    rfl

/-- C7: for a millisecond count `ms` whose instant falls in a year 0000 to 9999 of the
fixed UTC+8 zone, `GetTimeMsString ms` returns (it does not panic) the rendering
"YYYY-MM-DD HH:MM:SS" of that instant in UTC+8, which has 19 characters, followed by
"." and by the millisecond of the second, `ms mod 1000` taken non-negative, as exactly
three decimal digits; the result has 23 characters. The instant is the one `time.Unix`
builds from Go's truncated quotient and remainder of `ms`. -/
theorem C7_GetTimeMsString_padded (ms : Int)
    (h0 : 0 ≤ Year { sec := ms / 1000, nsec := ms % 1000 * 1000000 })
    (h1 : Year { sec := ms / 1000, nsec := ms % 1000 * 1000000 } ≤ 9999) :
    Unix (Int.tdiv ms 1000) (Int.tmod ms 1000 * 1000000)
        = { sec := ms / 1000, nsec := ms % 1000 * 1000000 }
      ∧ (GetTimeString { sec := ms / 1000, nsec := ms % 1000 * 1000000 }).length = 19
      ∧ GetTimeMsString ms
          = some (GetTimeString { sec := ms / 1000, nsec := ms % 1000 * 1000000 }
              ++ ascii "."
              ++ [48 + (ms % 1000).toNat / 100, 48 + (ms % 1000).toNat / 10 % 10,
                  48 + (ms % 1000).toNat % 10])
      ∧ ∀ r, GetTimeMsString ms = some r → r.length = 23 := by
  have hlen := GetTimeString_length _ h0 h1
  have heq := GetTimeMsString_eq ms h0 h1
  have h3 := fixedDigits_three (ms % 1000).toNat (by omega)
  rw [h3] at heq
  refine ⟨Unix_of_millis ms, hlen, heq, ?_⟩
  intro r hr
  rw [heq] at hr
  have := Option.some.inj hr
  rw [← this]
  simp only [List.length_append, hlen, ascii, List.length_map, List.length_cons,
    List.length_nil]

set_option maxRecDepth 100000 in
/-- Witness of C7: `ms = 1700000000500` is in the year 2023 and renders as
"2023-11-15 06:13:20.500". -/
theorem C7_GetTimeMsString_padded_witness :
    Year { sec := 1700000000500 / 1000, nsec := 1700000000500 % 1000 * 1000000 } = 2023
      ∧ GetTimeMsString 1700000000500 = some (ascii "2023-11-15 06:13:20.500")
      ∧ GetTimeMsString 1700000000000 = some (ascii "2023-11-15 06:13:20.000")
      ∧ ∀ r, GetTimeMsString 1700000000500 = some r → r.length = 23 :=
  ⟨by decide, by decide, by decide,
   (C7_GetTimeMsString_padded 1700000000500 (by decide) (by decide)).2.2.2⟩

/-- C8: `StrToInt` is a total function; for every text (of bytes) it returns what the
specification says: the integer denoted by the text when it is a base-10 literal, an optional
sign followed by one or more decimal digits, whose value is within the signed 64-bit
range, and 0 for every other text. -/
theorem C8_StrToInt_total (s : GoString) (hb : validBytes s) :
    StrToInt s = StrToIntSpec s
      ∧ (∀ v, literalValue s = some v → -(2 : Int) ^ 63 ≤ v → v ≤ 2 ^ 63 - 1 →
          StrToInt s = v)
      ∧ (literalValue s = none → StrToInt s = 0)
      ∧ (∀ v, literalValue s = some v → ¬ (-(2 : Int) ^ 63 ≤ v ∧ v ≤ 2 ^ 63 - 1) →
          StrToInt s = 0) := by
  have h := StrToInt_eq_spec s hb
  refine ⟨h, ?_, ?_, ?_⟩
  · intro v hv hlo hhi
    rw [h]
    unfold StrToIntSpec inRangeOrZero
    rw [hv]
    simp only []
    rw [if_pos ⟨hlo, hhi⟩]
  · intro hv
    rw [h]
    unfold StrToIntSpec inRangeOrZero
    rw [hv]
  · intro v hv hr
    rw [h]
    unfold StrToIntSpec inRangeOrZero
    rw [hv]
    simp only []
    rw [if_neg hr]

/-- Witness of C8: "42" is a literal of value 42 and `StrToInt` returns 42; "abc" is
not a literal and `StrToInt` returns 0. -/
theorem C8_StrToInt_total_witness :
    validBytes (ascii "42") ∧ literalValue (ascii "42") = some 42
      ∧ StrToInt (ascii "42") = 42
      ∧ literalValue (ascii "abc") = none ∧ StrToInt (ascii "abc") = 0 :=
  ⟨by decide, by decide,
   (C8_StrToInt_total (ascii "42") (by decide)).2.1 42 (by decide) (by decide) (by decide),
   by decide, by decide⟩

end Util
